import Mathlib

/-!
# Boundary-tag heap allocator of `week3/hello.cpp`

A shallow embedding of `coalesce`, `malloc` and `free` over a flat,
byte-addressed memory.  Every quantity of type `size_t` and every pointer is a
natural number below `2 ^ 64`; arithmetic on them wraps modulo `2 ^ 64`.  The
fields of `struct free_block` sit at the byte offsets the compiler gives them
on the 64-bit target the source assumes (`header` 0, `next` 8, `prev` 16,
`footer` 24).  The process break moved by `sbrk` is part of the state.

The functions `coalesce`, `malloc` and `free` below give the values the code
computes, over a memory in which every address holds a byte.  A process only
has part of its address space mapped, and an access outside that part ends it
with a fault.  The functions `coalesceTrace`, `mallocTrace` and `freeTrace`
list the accesses the code makes, in source order, and `firstFault` finds the
first one outside the mapped part: a statement about a run describes the code
up to that access, or all of it when there is none.
-/

namespace Alloc

/-! ## Machine words -/

/-- Modulus of `size_t` and of pointers (the source assumes 8-byte `size_t`). -/
def WORD : Nat := 2 ^ 64

/-- Wrapping addition of `size_t` values and of pointer offsets. -/
def add64 (a b : Nat) : Nat := (a + b) % WORD

/-- Wrapping subtraction of `size_t` values and of pointer offsets. -/
def sub64 (a b : Nat) : Nat := (a + (WORD - b % WORD)) % WORD

/-- The expression `x & ~1`: the size part of a tag word. -/
def clearFlag (x : Nat) : Nat := x - x % 2

/-- The expression `x | 1`: a tag word with the allocation flag set. -/
def setFlag (x : Nat) : Nat := x - x % 2 + 1

/-- The expression `x & 1`: the allocation flag of a tag word. -/
def flagBit (x : Nat) : Nat := x % 2

/-! ## Constants and macros of the source -/

def ALIGNMENT : Nat := 8

def HEADER_SIZE : Nat := 8

def FOOTER_SIZE : Nat := 8

def MIN_SPLIT_SIZE : Nat := ALIGNMENT * 2

/-- The macro `ALIGN(size)`, `((size) + (ALIGNMENT-1)) & ~(ALIGNMENT-1)`. -/
def ALIGN (size : Nat) : Nat :=
  add64 size (ALIGNMENT - 1) - add64 size (ALIGNMENT - 1) % ALIGNMENT

/-- Byte offset of the field `next` in `struct free_block`. -/
def NEXT_OFF : Nat := 8

/-- Byte offset of the field `prev` in `struct free_block`. -/
def PREV_OFF : Nat := 16

/-- Byte offset of the field `footer` in `struct free_block`. -/
def FOOTER_OFF : Nat := 24

/-- The null pointer, also the value `malloc` returns on failure. -/
def NULL : Nat := 0

/-! ## Memory -/

/-- Byte `i` of the little-endian representation of `v`. -/
def byteAt (v i : Nat) : Nat := v / 256 ^ i % 256

/-- Read of the 8-byte word at byte address `a`. -/
def load64 (m : Nat → Nat) (a : Nat) : Nat :=
  m a % 256 + m (a + 1) % 256 * 256 ^ 1 + m (a + 2) % 256 * 256 ^ 2
    + m (a + 3) % 256 * 256 ^ 3 + m (a + 4) % 256 * 256 ^ 4
    + m (a + 5) % 256 * 256 ^ 5 + m (a + 6) % 256 * 256 ^ 6
    + m (a + 7) % 256 * 256 ^ 7

/-- Write of the 8-byte word `v` at byte address `a`. -/
def store64 (m : Nat → Nat) (a v : Nat) : Nat → Nat :=
  fun x => if a ≤ x ∧ x < a + 8 then byteAt v (x - a) else m x

/-- State of the process as the allocator sees it: the memory, the two
globals of the source, the current break and the address the break cannot
pass (the resource limit that makes `sbrk` fail). -/
structure Heap where
  mem : Nat → Nat
  free_list_head : Nat
  heap_start : Nat
  brk : Nat
  limit : Nat

namespace Heap

/-- The value read as a `size_t` or pointer at address `a`.  Whether the
address is mapped is not decided here but by `firstFault` on the trace. -/
def rd (s : Heap) (a : Nat) : Nat := load64 s.mem a

/-- The memory after a write of a `size_t` or pointer at address `a`.  Whether
the address is mapped is not decided here but by `firstFault` on the trace. -/
def wr (s : Heap) (a v : Nat) : Heap := { s with mem := store64 s.mem a v }

end Heap

/-- The call `sbrk(n)` for `n > 0`.  The parameter of `sbrk` is an `intptr_t`
and the source passes a `size_t`: a value below `2 ^ 63` moves the break up by
`n` bytes, or fails (the `(void*)-1` result) when the limit would be passed; a
value from `2 ^ 63` on is the negative increment `n - 2 ^ 64`, which moves the
break down and fails only when it is larger than the break itself. -/
def sbrk (s : Heap) (n : Nat) : Option Heap :=
  if n < 2 ^ 63 then
    if s.brk + n ≤ s.limit then some { s with brk := s.brk + n } else none
  else
    if WORD - n ≤ s.brk then some { s with brk := s.brk - (WORD - n) } else none

/-! ## The list unlink of `coalesce` (source lines 50-52 and 65-67) -/

/-- Removal of block `b` from the free list, as `coalesce` writes it. -/
def unlink (s : Heap) (b : Nat) : Heap :=
  let s1 := if s.rd (add64 b PREV_OFF) ≠ NULL
    then s.wr (add64 (s.rd (add64 b PREV_OFF)) NEXT_OFF) (s.rd (add64 b NEXT_OFF))
    else s
  let s2 := if s1.rd (add64 b NEXT_OFF) ≠ NULL
    then s1.wr (add64 (s1.rd (add64 b NEXT_OFF)) PREV_OFF) (s1.rd (add64 b PREV_OFF))
    else s1
  if b = s2.free_list_head
    then { s2 with free_list_head := s2.rd (add64 b NEXT_OFF) }
    else s2

/-- Backward half of `coalesce` (source lines 44-57): the state, the block
and the block size after it. -/
def coalesceBack (s : Heap) (block block_size : Nat) : Heap × Nat × Nat :=
  if block > s.heap_start then
    let prev_footer := sub64 block 8
    if flagBit (s.rd prev_footer) = 0 then
      let prev_size := clearFlag (s.rd prev_footer)
      let prev_block := sub64 (sub64 (sub64 block prev_size) HEADER_SIZE) FOOTER_SIZE
      let s1 := unlink s prev_block
      (s1, prev_block, add64 block_size (add64 (add64 prev_size HEADER_SIZE) FOOTER_SIZE))
    else (s, block, block_size)
  else (s, block, block_size)

/-- Forward half of `coalesce` (source lines 60-71): the state and the block
size after it. -/
def coalesceFwd (s : Heap) (block block_size : Nat) : Heap × Nat :=
  let next_block := add64 (add64 (add64 block block_size) HEADER_SIZE) FOOTER_SIZE
  if next_block < s.brk then
    if flagBit (s.rd next_block) = 0 then
      let next_size := clearFlag (s.rd next_block)
      let s1 := unlink s next_block
      (s1, add64 block_size (add64 (add64 next_size HEADER_SIZE) FOOTER_SIZE))
    else (s, block_size)
  else (s, block_size)

/-- Last part of `coalesce` (source lines 74-80): tags of the merged block and
insertion at the head of the free list. -/
def insertHead (s : Heap) (block block_size : Nat) : Heap :=
  let s1 := s.wr block block_size
  let s2 := s1.wr (add64 block FOOTER_OFF) block_size
  let s3 := s2.wr (add64 block NEXT_OFF) s2.free_list_head
  let s4 := s3.wr (add64 block PREV_OFF) NULL
  let s5 := if s4.free_list_head ≠ NULL
    then s4.wr (add64 s4.free_list_head PREV_OFF) block
    else s4
  { s5 with free_list_head := block }

/-- The function `coalesce(block)`. -/
def coalesce (s : Heap) (block : Nat) : Heap :=
  let block_size := clearFlag (s.rd block)
  let r := coalesceBack s block block_size
  let f := coalesceFwd r.1 r.2.1 r.2.2
  insertHead f.1 r.2.1 f.2

/-- The request size `malloc` works with (source lines 88-89). -/
def totalSize (size : Nat) : Nat :=
  if ALIGN (add64 (add64 size HEADER_SIZE) FOOTER_SIZE) < MIN_SPLIT_SIZE
    then MIN_SPLIT_SIZE
    else ALIGN (add64 (add64 size HEADER_SIZE) FOOTER_SIZE)

/-- The split branch of `malloc` (source lines 99-112): `current` keeps
`total_size`, the rest becomes a free block that takes the place of `current`
in the list. -/
def grantSplit (s : Heap) (current total_size remaining : Nat) : Heap :=
  let s1 := s.wr current (setFlag total_size)
  let s2 := s1.wr (add64 current FOOTER_OFF) (setFlag total_size)
  let remaining_block := add64 (add64 (add64 current total_size) HEADER_SIZE) FOOTER_SIZE
  let s3 := s2.wr remaining_block remaining
  let s4 := s3.wr (add64 remaining_block FOOTER_OFF) remaining
  let s5 := s4.wr (add64 remaining_block NEXT_OFF) (s4.rd (add64 current NEXT_OFF))
  let s6 := s5.wr (add64 remaining_block PREV_OFF) (s5.rd (add64 current PREV_OFF))
  let s7 := if s6.rd (add64 current PREV_OFF) ≠ NULL
    then s6.wr (add64 (s6.rd (add64 current PREV_OFF)) NEXT_OFF) remaining_block
    else s6
  let s8 := if s7.rd (add64 current NEXT_OFF) ≠ NULL
    then s7.wr (add64 (s7.rd (add64 current NEXT_OFF)) PREV_OFF) remaining_block
    else s7
  if s8.free_list_head = current
    then { s8 with free_list_head := remaining_block }
    else s8

/-- The whole-block branch of `malloc` (source lines 115-120). -/
def grantWhole (s : Heap) (current : Nat) : Heap :=
  let s1 := s.wr current (setFlag (s.rd current))
  let s2 := s1.wr (add64 current FOOTER_OFF) (setFlag (s1.rd (add64 current FOOTER_OFF)))
  unlink s2 current

/-- Body of the `if (current_size >= total_size)` branch of `malloc` (source
lines 97-123): split or whole-block grant of `current`; the result is the
returned address and the state. -/
def grant (s : Heap) (current total_size : Nat) : Nat × Heap :=
  if clearFlag (s.rd current) - total_size ≥ MIN_SPLIT_SIZE then
    (add64 current 8, grantSplit s current total_size (clearFlag (s.rd current) - total_size))
  else
    (add64 current 8, grantWhole s current)

/-- Outcome of the `while (current)` loop of `malloc`. -/
inductive Scan where
  | found (ptr : Nat) (s : Heap)
  | nofit
  | timeout

/-- The first-fit loop of `malloc` (source lines 93-126), run for at most
`fuel` iterations from `current`. -/
def scan : Nat → Heap → Nat → Nat → Scan
  | 0, _, _, current => if current = NULL then Scan.nofit else Scan.timeout
  | fuel + 1, s, total_size, current =>
    if current = NULL then Scan.nofit
    else if clearFlag (s.rd current) ≥ total_size then
      Scan.found (grant s current total_size).1 (grant s current total_size).2
    else scan fuel s total_size (s.rd (add64 current NEXT_OFF))

/-- The amount `malloc` passes to `sbrk` when no block fits (source line 129). -/
def extendSize (size : Nat) : Nat :=
  if totalSize size > 4096 then totalSize size else 4096

/-- The function `malloc(size)`.  `fuel` bounds the iterations of each list
scan and the depth of the recursive retry; `none` means the bound was hit. -/
def malloc : Nat → Heap → Nat → Option (Nat × Heap)
  | 0, s, size => if size = 0 then some (NULL, s) else none
  | fuel + 1, s, size =>
    if size = 0 then some (NULL, s)
    else
      match scan (fuel + 1) s (totalSize size) s.free_list_head with
      | Scan.found ptr s1 => some (ptr, s1)
      | Scan.timeout => none
      | Scan.nofit =>
        let extend_size := extendSize size
        let new_block := s.brk
        match sbrk s extend_size with
        | none => some (NULL, s)
        | some s1 =>
          let s2 := s1.wr new_block extend_size
          let s3 := s2.wr (add64 new_block FOOTER_OFF) extend_size
          malloc fuel (coalesce s3 new_block) size

/-- The function `free(ptr)`. -/
def free (s : Heap) (ptr : Nat) : Heap :=
  if ptr = NULL then s
  else
    let block := sub64 ptr 8
    let s1 := s.wr block (clearFlag (s.rd block))
    let s2 := s1.wr (add64 block FOOTER_OFF) (clearFlag (s1.rd (add64 block FOOTER_OFF)))
    coalesce s2 block

/-! ## The free list as a sequence of blocks -/

/-- The blocks the loop of `malloc` visits from `c` on are exactly `xs`, in
this order, and after the last one the `next` link is `NULL`. -/
def Chain (s : Heap) : Nat → List Nat → Prop
  | c, [] => c = NULL
  | c, b :: bs => c = b ∧ b ≠ NULL ∧ Chain s (s.rd (add64 b NEXT_OFF)) bs

instance Chain.dec (s : Heap) : (c : Nat) → (xs : List Nat) → Decidable (Chain s c xs)
  | c, [] => inferInstanceAs (Decidable (c = NULL))
  | c, b :: bs =>
    have := Chain.dec s (s.rd (add64 b NEXT_OFF)) bs
    inferInstanceAs (Decidable (c = b ∧ b ≠ NULL ∧ Chain s (s.rd (add64 b NEXT_OFF)) bs))

/-! ## Client programs -/

/-- Address of the break of a process that has not called `malloc` yet. -/
def BASE : Nat := 0x100000

/-- State before the first call: both globals are `NULL` as the source
initialises them, the break is at `BASE`, and memory is zero except for the
word just below the break, which holds `g`.  That word does not belong to the
heap; `coalesce` reads it because `heap_start` is never assigned. -/
def emptyHeap (g : Nat) : Heap :=
  { mem := store64 (fun _ => 0) (BASE - 8) g
    free_list_head := NULL
    heap_start := NULL
    brk := BASE
    limit := BASE + 0x100000 }

/-- One step of a client: a call of `malloc`, a call of `free` on the pointer
returned by the `i`-th call of `malloc` so far, or a store of the client into
memory it was given. -/
inductive Call where
  | alloc (n : Nat)
  | release (i : Nat)
  | store (a v : Nat)

/-- Runs a client from state `s`; `ps` collects the results of the `malloc`
calls in call order.  `none` when a call of `malloc` does not return within
the bound `8`. -/
def runCalls : Heap → List Nat → List Call → Option (Heap × List Nat)
  | s, ps, [] => some (s, ps)
  | s, ps, Call.alloc n :: cs =>
    match malloc 8 s n with
    | none => none
    | some (p, s1) => runCalls s1 (ps ++ [p]) cs
  | s, ps, Call.release i :: cs => runCalls (free s (ps.getD i NULL)) ps cs
  | s, ps, Call.store a v :: cs => runCalls (s.wr a v) ps cs

/-- Results of the `malloc` calls of a client, in call order. -/
def ptrsAfter (s : Heap) (cs : List Call) : Option (List Nat) :=
  (runCalls s [] cs).map (fun r => r.2)

/-- The word at address `a` after a client has run. -/
def wordAfter (s : Heap) (cs : List Call) (a : Nat) : Option Nat :=
  (runCalls s [] cs).map (fun r => r.1.rd a)

/-- The head of the free list after a client has run. -/
def headAfter (s : Heap) (cs : List Call) : Option Nat :=
  (runCalls s [] cs).map (fun r => r.1.free_list_head)

/-- The break after a client has run. -/
def brkAfter (s : Heap) (cs : List Call) : Option Nat :=
  (runCalls s [] cs).map (fun r => r.1.brk)

/-- The state after a client has run (the start state if a call did not return). -/
def stateAfter (s : Heap) (cs : List Call) : Heap :=
  match runCalls s [] cs with
  | some r => r.1
  | none => s

/-- The block that follows block `b` in the heap, the way `coalesce` finds it
(source line 60). -/
def succBlock (s : Heap) (b : Nat) : Nat :=
  add64 (add64 (add64 b (clearFlag (s.rd b))) HEADER_SIZE) FOOTER_SIZE

/-- No block of the list `xs` is followed inside the heap by a block whose
allocation flag is clear. -/
def NoAdjacentFree (s : Heap) (xs : List Nat) : Prop :=
  ∀ b ∈ xs, succBlock s b < s.brk → flagBit (s.rd (succBlock s b)) = 1

instance NoAdjacentFree.dec (s : Heap) (xs : List Nat) : Decidable (NoAdjacentFree s xs) :=
  inferInstanceAs (Decidable (∀ b ∈ xs, succBlock s b < s.brk → flagBit (s.rd (succBlock s b)) = 1))

/-! ## Growth, heap traversal and list shape -/

/-- The growth step of `malloc` (source lines 129-134), taken when no block
fits: `sbrk`, tags of the new block at the old break, `coalesce`.  `none`
when `sbrk` fails. -/
def growHeap (s : Heap) (size : Nat) : Option Heap :=
  match sbrk s (extendSize size) with
  | none => none
  | some s1 =>
    some (coalesce
      ((s1.wr s.brk (extendSize size)).wr (add64 s.brk FOOTER_OFF) (extendSize size)) s.brk)

/-- The state after the first growth of the heap of `emptyHeap g`, made for a
request of 16 bytes, before the retry of `malloc`. -/
def grownHeap (g : Nat) : Heap :=
  match growHeap (emptyHeap g) 16 with
  | some s => s
  | none => emptyHeap g

/-- The block `malloc` creates for the rest of a split block (source line 104). -/
def remBlock (current total_size : Nat) : Nat :=
  add64 (add64 (add64 current total_size) HEADER_SIZE) FOOTER_SIZE

/-- The word right before the header of the block that follows `b`: the word
`coalesce` reads as `(size_t*)block - 1` when it is run on that next block. -/
def boundaryWord (s : Heap) (b : Nat) : Nat :=
  s.rd (sub64 (succBlock s b) 8)

/-- Sequential traversal of the heap from block `b`: at most `fuel` blocks,
each found from the one before by `succBlock`, up to the break. -/
def heapBlocks : Nat → Heap → Nat → List Nat
  | 0, _, _ => []
  | fuel + 1, s, b => if b < s.brk then b :: heapBlocks fuel s (succBlock s b) else []

/-- Every block of `xs` has the block before it in `xs` as its `prev` link,
the first one has `p`. -/
def PrevLinked (s : Heap) : Nat → List Nat → Prop
  | _, [] => True
  | p, x :: xs => s.rd (add64 x PREV_OFF) = p ∧ PrevLinked s x xs

instance PrevLinked.dec (s : Heap) : (p : Nat) → (xs : List Nat) → Decidable (PrevLinked s p xs)
  | _, [] => inferInstanceAs (Decidable True)
  | p, x :: xs =>
    have := PrevLinked.dec s x xs
    inferInstanceAs (Decidable (s.rd (add64 x PREV_OFF) = p ∧ PrevLinked s x xs))

/-- The free list of `s` is the well-formed doubly linked list `xs`: the
`next` links from the head run through `xs` and end in `NULL`, no block occurs
twice, the `prev` link of the head is `NULL` and the `prev` link of every
other block is the block before it. -/
def WellFormed (s : Heap) (xs : List Nat) : Prop :=
  Chain s s.free_list_head xs ∧ xs.Nodup ∧ PrevLinked s NULL xs

instance WellFormed.dec (s : Heap) (xs : List Nat) : Decidable (WellFormed s xs) :=
  inferInstanceAs (Decidable (Chain s s.free_list_head xs ∧ xs.Nodup ∧ PrevLinked s NULL xs))

/-- The state inside the third call of the client `malloc(first)`, `malloc(1)`,
`malloc(16)` run from `emptyHeap g`: the first two calls are done and the
third has grown the heap and is about to retry. -/
def crowdedHeap (g first : Nat) : Heap :=
  match growHeap (stateAfter (emptyHeap g) [Call.alloc first, Call.alloc 1]) 16 with
  | some s => s
  | none => emptyHeap g

/-! ## Memory accesses

The functions above give the values the code computes.  The functions of this
section list, for the same runs, the 8-byte accesses the code makes, in the
order of the source.  A process can only access the part of the address space
that is mapped; the first access of a run outside that part is where the
process stops with a fault, and what the value functions compute from there on
describes no run of the code. -/

/-- One 8-byte access to memory: a read or a write at a byte address. -/
inductive Access where
  | load (a : Nat)
  | store (a : Nat)
  deriving DecidableEq

namespace Access

/-- Address of an access. -/
def addr : Access → Nat
  | load a => a
  | store a => a

/-- The eight bytes of the access lie in the mapped region `[lo, hi)`. -/
def mapped (lo hi : Nat) (x : Access) : Bool :=
  decide (lo ≤ x.addr ∧ x.addr + 8 ≤ hi)

end Access

/-- The first access of a trace that is not inside the mapped region
`[lo, hi)`: the access at which the process faults.  `none` when every access
is mapped. -/
def firstFault (lo hi : Nat) (tr : List Access) : Option Access :=
  tr.find? (fun x => ! x.mapped lo hi)

/-- Accesses of the list unlink (source lines 50-52 and 65-67, also 118-120). -/
def unlinkTrace (s : Heap) (b : Nat) : List Access :=
  let s1 := if s.rd (add64 b PREV_OFF) ≠ NULL
    then s.wr (add64 (s.rd (add64 b PREV_OFF)) NEXT_OFF) (s.rd (add64 b NEXT_OFF))
    else s
  [Access.load (add64 b PREV_OFF)]
    ++ (if s.rd (add64 b PREV_OFF) ≠ NULL
        then [Access.load (add64 b PREV_OFF), Access.load (add64 b NEXT_OFF),
          Access.store (add64 (s.rd (add64 b PREV_OFF)) NEXT_OFF)]
        else [])
    ++ [Access.load (add64 b NEXT_OFF)]
    ++ (if s1.rd (add64 b NEXT_OFF) ≠ NULL
        then [Access.load (add64 b NEXT_OFF), Access.load (add64 b PREV_OFF),
          Access.store (add64 (s1.rd (add64 b NEXT_OFF)) PREV_OFF)]
        else [])
    ++ (if b = s1.free_list_head then [Access.load (add64 b NEXT_OFF)] else [])

/-- Accesses of the backward half of `coalesce` (source lines 44-57). -/
def coalesceBackTrace (s : Heap) (block : Nat) : List Access :=
  if block > s.heap_start then
    let prev_footer := sub64 block 8
    [Access.load prev_footer]
      ++ (if flagBit (s.rd prev_footer) = 0 then
          let prev_size := clearFlag (s.rd prev_footer)
          let prev_block := sub64 (sub64 (sub64 block prev_size) HEADER_SIZE) FOOTER_SIZE
          [Access.load prev_footer] ++ unlinkTrace s prev_block
        else [])
  else []

/-- Accesses of the forward half of `coalesce` (source lines 60-71). -/
def coalesceFwdTrace (s : Heap) (block block_size : Nat) : List Access :=
  let next_block := add64 (add64 (add64 block block_size) HEADER_SIZE) FOOTER_SIZE
  if next_block < s.brk then
    [Access.load next_block]
      ++ (if flagBit (s.rd next_block) = 0 then
          [Access.load next_block] ++ unlinkTrace s next_block
        else [])
  else []

/-- Accesses of the last part of `coalesce` (source lines 74-80). -/
def insertHeadTrace (s : Heap) (block : Nat) : List Access :=
  [Access.store block, Access.store (add64 block FOOTER_OFF),
    Access.store (add64 block NEXT_OFF), Access.store (add64 block PREV_OFF)]
    ++ (if s.free_list_head ≠ NULL
        then [Access.store (add64 s.free_list_head PREV_OFF)]
        else [])

/-- Accesses of `coalesce(block)`. -/
def coalesceTrace (s : Heap) (block : Nat) : List Access :=
  let block_size := clearFlag (s.rd block)
  let r := coalesceBack s block block_size
  let f := coalesceFwd r.1 r.2.1 r.2.2
  [Access.load block] ++ coalesceBackTrace s block
    ++ coalesceFwdTrace r.1 r.2.1 r.2.2
    ++ insertHeadTrace f.1 r.2.1

/-- Accesses of the split branch of `malloc` (source lines 99-112). -/
def grantSplitTrace (s : Heap) (current total_size remaining : Nat) : List Access :=
  let s1 := s.wr current (setFlag total_size)
  let s2 := s1.wr (add64 current FOOTER_OFF) (setFlag total_size)
  let remaining_block := add64 (add64 (add64 current total_size) HEADER_SIZE) FOOTER_SIZE
  let s3 := s2.wr remaining_block remaining
  let s4 := s3.wr (add64 remaining_block FOOTER_OFF) remaining
  let s5 := s4.wr (add64 remaining_block NEXT_OFF) (s4.rd (add64 current NEXT_OFF))
  let s6 := s5.wr (add64 remaining_block PREV_OFF) (s5.rd (add64 current PREV_OFF))
  let s7 := if s6.rd (add64 current PREV_OFF) ≠ NULL
    then s6.wr (add64 (s6.rd (add64 current PREV_OFF)) NEXT_OFF) remaining_block
    else s6
  [Access.store current, Access.store (add64 current FOOTER_OFF),
    Access.store remaining_block, Access.store (add64 remaining_block FOOTER_OFF),
    Access.load (add64 current NEXT_OFF), Access.store (add64 remaining_block NEXT_OFF),
    Access.load (add64 current PREV_OFF), Access.store (add64 remaining_block PREV_OFF),
    Access.load (add64 current PREV_OFF)]
    ++ (if s6.rd (add64 current PREV_OFF) ≠ NULL
        then [Access.load (add64 current PREV_OFF),
          Access.store (add64 (s6.rd (add64 current PREV_OFF)) NEXT_OFF)]
        else [])
    ++ [Access.load (add64 current NEXT_OFF)]
    ++ (if s7.rd (add64 current NEXT_OFF) ≠ NULL
        then [Access.load (add64 current NEXT_OFF),
          Access.store (add64 (s7.rd (add64 current NEXT_OFF)) PREV_OFF)]
        else [])

/-- Accesses of the whole-block branch of `malloc` (source lines 115-120). -/
def grantWholeTrace (s : Heap) (current : Nat) : List Access :=
  let s1 := s.wr current (setFlag (s.rd current))
  let s2 := s1.wr (add64 current FOOTER_OFF) (setFlag (s1.rd (add64 current FOOTER_OFF)))
  [Access.load current, Access.store current,
    Access.load (add64 current FOOTER_OFF), Access.store (add64 current FOOTER_OFF)]
    ++ unlinkTrace s2 current

/-- Accesses of the `if (current_size >= total_size)` branch of `malloc`. -/
def grantTrace (s : Heap) (current total_size : Nat) : List Access :=
  if clearFlag (s.rd current) - total_size ≥ MIN_SPLIT_SIZE then
    grantSplitTrace s current total_size (clearFlag (s.rd current) - total_size)
  else
    grantWholeTrace s current

/-- Accesses of the first-fit loop of `malloc`, run for at most `fuel`
iterations from `current`: the header of each visited block, then the grant
or the `next` link. -/
def scanTrace : Nat → Heap → Nat → Nat → List Access
  | 0, _, _, _ => []
  | fuel + 1, s, total_size, current =>
    if current = NULL then []
    else if clearFlag (s.rd current) ≥ total_size then
      Access.load current :: grantTrace s current total_size
    else
      Access.load current :: Access.load (add64 current NEXT_OFF)
        :: scanTrace fuel s total_size (s.rd (add64 current NEXT_OFF))

/-- Accesses of `malloc(size)`, with the bound `fuel` of `malloc`: the loop,
then, when no block fits and `sbrk` succeeds, the tags of the new block, the
call of `coalesce` and the recursive call. -/
def mallocTrace : Nat → Heap → Nat → List Access
  | 0, _, _ => []
  | fuel + 1, s, size =>
    if size = 0 then []
    else
      scanTrace (fuel + 1) s (totalSize size) s.free_list_head
        ++ (match scan (fuel + 1) s (totalSize size) s.free_list_head with
          | Scan.found _ _ => []
          | Scan.timeout => []
          | Scan.nofit =>
            let extend_size := extendSize size
            let new_block := s.brk
            match sbrk s extend_size with
            | none => []
            | some s1 =>
              let s2 := s1.wr new_block extend_size
              let s3 := s2.wr (add64 new_block FOOTER_OFF) extend_size
              [Access.store new_block, Access.store (add64 new_block FOOTER_OFF)]
                ++ coalesceTrace s3 new_block
                ++ mallocTrace fuel (coalesce s3 new_block) size)

/-- Accesses of `free(ptr)`. -/
def freeTrace (s : Heap) (ptr : Nat) : List Access :=
  if ptr = NULL then []
  else
    let block := sub64 ptr 8
    let s1 := s.wr block (clearFlag (s.rd block))
    let s2 := s1.wr (add64 block FOOTER_OFF) (clearFlag (s1.rd (add64 block FOOTER_OFF)))
    [Access.load block, Access.store block,
      Access.load (add64 block FOOTER_OFF), Access.store (add64 block FOOTER_OFF)]
      ++ coalesceTrace s2 block

/-- Accesses of the growth step `growHeap`. -/
def growTrace (s : Heap) (size : Nat) : List Access :=
  match sbrk s (extendSize size) with
  | none => []
  | some s1 =>
    [Access.store s.brk, Access.store (add64 s.brk FOOTER_OFF)]
      ++ coalesceTrace
        ((s1.wr s.brk (extendSize size)).wr (add64 s.brk FOOTER_OFF) (extendSize size)) s.brk

/-- Accesses of a client run, in the order of `runCalls`. -/
def runTrace : Heap → List Nat → List Call → List Access
  | _, _, [] => []
  | s, ps, Call.alloc n :: cs =>
    mallocTrace 8 s n
      ++ (match malloc 8 s n with
        | none => []
        | some (p, s1) => runTrace s1 (ps ++ [p]) cs)
  | s, ps, Call.release i :: cs =>
    freeTrace s (ps.getD i NULL) ++ runTrace (free s (ps.getD i NULL)) ps cs
  | s, ps, Call.store a v :: cs => Access.store a :: runTrace (s.wr a v) ps cs

/-- The access at which a client started in state `s` faults, in a process
where the mapped memory is the word below the first break and everything from
there up to the address the break cannot pass.  `none` when the client runs
to its end without a fault. -/
def faultAfter (s : Heap) (cs : List Call) : Option Access :=
  firstFault (BASE - 8) s.limit (runTrace s [] cs)

/-- A state with two blocks on the free list (40 bytes at `BASE`, then 4032
bytes at `BASE + 96`): `malloc(24)`, `malloc(8)` and `free` of the first
result. -/
def pairHeap : Heap :=
  stateAfter (emptyHeap 1) [Call.alloc 24, Call.alloc 8, Call.release 0]

/-- The 32-byte `struct free_block` at `x` and the one at `y` share no byte. -/
def Apart (x y : Nat) : Prop := x + 32 ≤ y ∨ y + 32 ≤ x

instance Apart.dec (x y : Nat) : Decidable (Apart x y) :=
  inferInstanceAs (Decidable (x + 32 ≤ y ∨ y + 32 ≤ x))

/-! ## Basic facts about memory -/

/-- A word read from memory is below `2 ^ 64`. -/
theorem load64_lt (m : Nat → Nat) (a : Nat) : load64 m a < WORD := by
  unfold load64 WORD
  have h0 := Nat.mod_lt (m a) (show 0 < 256 by decide)
  have h1 := Nat.mod_lt (m (a + 1)) (show 0 < 256 by decide)
  have h2 := Nat.mod_lt (m (a + 2)) (show 0 < 256 by decide)
  have h3 := Nat.mod_lt (m (a + 3)) (show 0 < 256 by decide)
  have h4 := Nat.mod_lt (m (a + 4)) (show 0 < 256 by decide)
  have h5 := Nat.mod_lt (m (a + 5)) (show 0 < 256 by decide)
  have h6 := Nat.mod_lt (m (a + 6)) (show 0 < 256 by decide)
  have h7 := Nat.mod_lt (m (a + 7)) (show 0 < 256 by decide)
  norm_num
  omega

/-- A read at the address just written returns the written word. -/
theorem load64_store64_same (m : Nat → Nat) (a v : Nat) :
    load64 (store64 m a v) a = v % WORD := by
  unfold load64 store64 byteAt WORD
  simp
  omega

/-- A write does not change a word that shares no byte with it. -/
theorem load64_store64_disjoint (m : Nat → Nat) (a b v : Nat) (h : a + 8 ≤ b ∨ b + 8 ≤ a) :
    load64 (store64 m a v) b = load64 m b := by
  unfold load64 store64
  have e : ∀ i, i < 8 → ¬ (a ≤ b + i ∧ b + i < a + 8) := by
    intro i hi; omega
  have e0 : ¬ (a ≤ b ∧ b < a + 8) := by omega
  simp only [if_neg e0, if_neg (e 1 (by decide)), if_neg (e 2 (by decide)),
    if_neg (e 3 (by decide)), if_neg (e 4 (by decide)), if_neg (e 5 (by decide)),
    if_neg (e 6 (by decide)), if_neg (e 7 (by decide))]

/-! ## Basic facts about `grant` and the first-fit loop -/

theorem grant_fst (s : Heap) (c t : Nat) : (grant s c t).1 = add64 c 8 := by
  unfold grant
  split <;> rfl

/-- The loop stops at the first block of the chain that is large enough. -/
theorem scan_finds_first (s : Heap) (t b : Nat) :
    ∀ (xs : List Nat) (c fuel : Nat), Chain s c xs →
      xs.find? (fun x => decide (t ≤ clearFlag (s.rd x))) = some b →
      xs.length ≤ fuel →
      scan fuel s t c = Scan.found (grant s b t).1 (grant s b t).2 := by
  intro xs
  induction xs with
  | nil => intro c fuel _ hfind _; simp at hfind
  | cons x xs ih =>
    intro c fuel hc hfind hfuel
    obtain ⟨hcx, hx0, hrest⟩ := hc
    subst hcx
    cases fuel with
    | zero => simp at hfuel
    | succ k =>
      simp only [List.length_cons, Nat.add_le_add_iff_right] at hfuel
      by_cases hfit : t ≤ clearFlag (s.rd c)
      · simp only [List.find?_cons, hfit, decide_True] at hfind
        cases hfind
        simp [scan, hx0, hfit]
      · simp only [List.find?_cons, hfit, decide_False] at hfind
        have h := ih (s.rd (add64 c NEXT_OFF)) k hrest hfind hfuel
        simp [scan, hx0, hfit, h]

/-- When the loop finds no block, `malloc` is the growth step followed by the
recursive call (or `NULL` in the unchanged state when `sbrk` fails). -/
theorem malloc_nofit_grow (fuel : Nat) (s : Heap) (size : Nat) (hsize : size ≠ 0)
    (hscan : scan (fuel + 1) s (totalSize size) s.free_list_head = Scan.nofit) :
    malloc (fuel + 1) s size =
      match growHeap s size with
      | none => some (NULL, s)
      | some s3 => malloc fuel s3 size := by
  rw [malloc, if_neg hsize, hscan]
  dsimp only
  unfold growHeap
  cases sbrk s (extendSize size) with
  | none => rfl
  | some s1 => rfl

theorem ite_wr_head (s : Heap) (c : Prop) [Decidable c] (a v : Nat) :
    (if c then s.wr a v else s).free_list_head = s.free_list_head := by
  split <;> rfl

/-- After a split the head of the free list is the remainder if the split
block was the head, and is unchanged otherwise. -/
theorem grantSplit_head (s : Heap) (c t r : Nat) :
    (grantSplit s c t r).free_list_head =
      if s.free_list_head = c then remBlock c t else s.free_list_head := by
  unfold grantSplit
  lift_lets
  intro s1 s2 rb s3 s4 s5 s6 s7 s8
  have h8 : s8.free_list_head = s7.free_list_head := ite_wr_head s7 _ _ _
  have h7 : s7.free_list_head = s6.free_list_head := ite_wr_head s6 _ _ _
  have h6 : s6.free_list_head = s.free_list_head := rfl
  have h : s8.free_list_head = s.free_list_head := by rw [h8, h7, h6]
  by_cases hc : s.free_list_head = c
  · rw [if_pos (h.trans hc), if_pos hc]
    rfl
  · rw [if_neg (fun e => hc (h.symm.trans e)), if_neg hc]
    exact h

/-- A state has at most one chain from a given block. -/
theorem Chain_unique (s : Heap) :
    ∀ (xs ys : List Nat) (c : Nat), Chain s c xs → Chain s c ys → xs = ys := by
  intro xs
  induction xs with
  | nil =>
    intro ys c hx hy
    cases ys with
    | nil => rfl
    | cons y ys =>
      have h0 : c = NULL := hx
      obtain ⟨hcy, hy0, _⟩ := hy
      exact absurd (hcy.symm.trans h0) hy0
  | cons x xs ih =>
    intro ys c hx hy
    obtain ⟨hcx, hx0, hrest⟩ := hx
    cases ys with
    | nil =>
      have h0 : c = NULL := hy
      exact absurd (hcx.symm.trans h0) hx0
    | cons y ys =>
      obtain ⟨hcy, _, hrest2⟩ := hy
      have hxy : x = y := hcx.symm.trans hcy
      subst hxy
      rw [ih ys _ hrest hrest2]

/-! ## Reads after writes -/

/-- A read at the address just written returns the written word. -/
theorem rd_wr_same (s : Heap) (a v : Nat) : (s.wr a v).rd a = v % WORD :=
  load64_store64_same s.mem a v

/-- A write does not change a word that shares no byte with it. -/
theorem rd_wr_apart (s : Heap) (a v x : Nat) (h : a + 8 ≤ x ∨ x + 8 ≤ a) :
    (s.wr a v).rd x = s.rd x :=
  load64_store64_disjoint s.mem a x v h

/-- A conditional write does not change a word that shares no byte with it. -/
theorem rd_ite_wr_apart (s : Heap) (c : Prop) [Decidable c] (a v x : Nat)
    (h : c → a + 8 ≤ x ∨ x + 8 ≤ a) : (if c then s.wr a v else s).rd x = s.rd x := by
  by_cases hc : c
  · rw [if_pos hc]
    exact rd_wr_apart s a v x (h hc)
  · rw [if_neg hc]

/-- A conditional write that is made is read back. -/
theorem rd_ite_wr_same (s : Heap) (c : Prop) [Decidable c] (a v : Nat) (h : c) :
    (if c then s.wr a v else s).rd a = v % WORD := by
  rw [if_pos h]
  exact rd_wr_same s a v

/-- A change of the list head changes no word of memory. -/
theorem rd_ite_head (s : Heap) (c : Prop) [Decidable c] (h x : Nat) :
    (if c then { s with free_list_head := h } else s).rd x = s.rd x := by
  split <;> rfl

/-- Pointer arithmetic that stays below `2 ^ 64` does not wrap. -/
theorem add64_eq (a b : Nat) (h : a + b < WORD) : add64 a b = a + b :=
  Nat.mod_eq_of_lt h

/-! ## Cyclic lists -/

/-- A block that is its own successor is on no `NULL`-terminated chain. -/
theorem chain_self_loop (s : Heap) (c : Nat) (hc : c ≠ NULL)
    (hloop : s.rd (add64 c NEXT_OFF) = c) : ∀ xs, ¬ Chain s c xs := by
  intro xs
  induction xs with
  | nil => intro h; exact hc h
  | cons x xs ih =>
    intro h
    obtain ⟨hcx, _, hrest⟩ := h
    subst hcx
    rw [hloop] at hrest
    exact ih hrest

/-! ## Faults and sizes -/

/-- A trace has no fault exactly when each of its accesses is mapped. -/
theorem firstFault_none_iff (lo hi : Nat) (tr : List Access) :
    firstFault lo hi tr = none ↔ ∀ a ∈ tr, lo ≤ a.addr ∧ a.addr + 8 ≤ hi := by
  unfold firstFault
  rw [List.find?_eq_none]
  simp [Access.mapped]

/-- The total of a request is at least `MIN_SPLIT_SIZE`. -/
theorem totalSize_ge (n : Nat) : MIN_SPLIT_SIZE ≤ totalSize n := by
  unfold totalSize
  split
  · exact Nat.le_refl _
  · omega

/-- The total of a request is even, so it has no flag bit. -/
theorem totalSize_even (n : Nat) : totalSize n % 2 = 0 := by
  unfold totalSize ALIGN MIN_SPLIT_SIZE ALIGNMENT
  split
  · rfl
  · omega

/-- A word with the flag cleared is even. -/
theorem clearFlag_even (x : Nat) : clearFlag x % 2 = 0 := by
  unfold clearFlag
  omega

/-- Clearing the flag does not enlarge a word. -/
theorem clearFlag_le (x : Nat) : clearFlag x ≤ x := Nat.sub_le _ _

/-! ## Memory and accesses of a split -/

/-- Memory after the eight stores of a split, the states between them given
by name. -/
theorem split_core (s s1 s2 s3 s4 s5 s6 s7 s8 : Heap) (c t r p q : Nat)
    (d1 : s1 = s.wr c (setFlag t)) (d2 : s2 = s1.wr (c + 24) (setFlag t))
    (d3 : s3 = s2.wr (c + t + 16) r) (d4 : s4 = s3.wr (c + t + 40) r)
    (d5 : s5 = s4.wr (c + t + 24) (s4.rd (c + 8)))
    (d6 : s6 = s5.wr (c + t + 32) (s5.rd (c + 16)))
    (d7 : s7 = if s6.rd (c + 16) ≠ NULL
      then s6.wr (add64 (s6.rd (c + 16)) NEXT_OFF) (c + t + 16) else s6)
    (d8 : s8 = if s7.rd (c + 8) ≠ NULL
      then s7.wr (add64 (s7.rd (c + 8)) PREV_OFF) (c + t + 16) else s7)
    (hp : s.rd (c + 16) = p) (hq : s.rd (c + 8) = q)
    (hroom : c + t + 48 ≤ WORD) (ht : 16 ≤ t) (hr : r < WORD)
    (hpa : p ≠ NULL → p + 32 ≤ WORD ∧ Apart p c ∧ Apart p (c + t + 16))
    (hqa : q ≠ NULL → q + 32 ≤ WORD ∧ Apart q c ∧ Apart q (c + t + 16))
    (hpq : p ≠ NULL → q ≠ NULL → Apart p q) :
    (s6.rd (c + 16) = p ∧ s7.rd (c + 8) = q)
      ∧ s8.rd c = setFlag t
      ∧ s8.rd (c + FOOTER_OFF) = setFlag t
      ∧ s8.rd (c + t + 16) = r
      ∧ s8.rd (c + t + 16 + FOOTER_OFF) = r
      ∧ s8.rd (c + t + 16 + NEXT_OFF) = q
      ∧ s8.rd (c + t + 16 + PREV_OFF) = p
      ∧ (p ≠ NULL → s8.rd (p + NEXT_OFF) = c + t + 16)
      ∧ (q ≠ NULL → s8.rd (q + PREV_OFF) = c + t + 16) := by
  have hW : WORD = 2 ^ 64 := rfl
  have hpW : p < WORD := hp ▸ load64_lt _ _
  have hqW : q < WORD := hq ▸ load64_lt _ _
  have p8 : p ≠ NULL → add64 p NEXT_OFF = p + 8 := fun h =>
    add64_eq _ _ (by have := (hpa h).1; unfold NEXT_OFF; omega)
  have q16 : q ≠ NULL → add64 q PREV_OFF = q + 16 := fun h =>
    add64_eq _ _ (by have := (hqa h).1; unfold PREV_OFF; omega)
  have hsf : setFlag t % WORD = setFlag t := Nat.mod_eq_of_lt (by unfold setFlag; omega)
  have a1 : p ≠ NULL → Apart p c ∧ Apart p (c + t + 16) := fun h => (hpa h).2
  have a2 : q ≠ NULL → Apart q c ∧ Apart q (c + t + 16) := fun h => (hqa h).2
  unfold Apart at a1 a2 hpq
  have hN : NEXT_OFF = 8 := rfl
  have hP : PREV_OFF = 16 := rfl
  have hT : FOOTER_OFF = 24 := rfl
  -- the words of `c` and of the remainder after the first six stores
  have e1 : ∀ x, c + 8 ≤ x → s1.rd x = s.rd x := fun x h => by
    rw [d1]; exact rd_wr_apart s _ _ _ (by omega)
  have e2 : ∀ x, c + 8 ≤ x → (x + 8 ≤ c + 24 ∨ c + 32 ≤ x) → s2.rd x = s.rd x :=
    fun x h h2 => by
      rw [d2]; exact (rd_wr_apart s1 _ _ _ (by omega)).trans (e1 x h)
  have e4q : s4.rd (c + 8) = q := by
    rw [d4, d3, ← hq]
    exact (rd_wr_apart _ _ _ _ (by omega)).trans ((rd_wr_apart _ _ _ _ (by omega)).trans
      (e2 _ (by omega) (by omega)))
  have e5p : s5.rd (c + 16) = p := by
    rw [d5, d4, d3, ← hp]
    exact (rd_wr_apart _ _ _ _ (by omega)).trans ((rd_wr_apart _ _ _ _ (by omega)).trans
      ((rd_wr_apart _ _ _ _ (by omega)).trans (e2 _ (by omega) (by omega))))
  have e6p : s6.rd (c + 16) = p := by
    rw [d6]; exact (rd_wr_apart _ _ _ _ (by omega)).trans e5p
  have e6q : s6.rd (c + 8) = q := by
    rw [d6, d5]
    exact (rd_wr_apart _ _ _ _ (by omega)).trans ((rd_wr_apart _ _ _ _ (by omega)).trans e4q)
  have e6c : s6.rd c = setFlag t := by
    rw [d6, d5, d4, d3, d2, d1]
    exact (rd_wr_apart _ _ _ _ (by omega)).trans ((rd_wr_apart _ _ _ _ (by omega)).trans
      ((rd_wr_apart _ _ _ _ (by omega)).trans ((rd_wr_apart _ _ _ _ (by omega)).trans
        ((rd_wr_apart _ _ _ _ (by omega)).trans ((rd_wr_same _ _ _).trans hsf)))))
  have e6f : s6.rd (c + 24) = setFlag t := by
    rw [d6, d5, d4, d3, d2]
    exact (rd_wr_apart _ _ _ _ (by omega)).trans ((rd_wr_apart _ _ _ _ (by omega)).trans
      ((rd_wr_apart _ _ _ _ (by omega)).trans ((rd_wr_apart _ _ _ _ (by omega)).trans
        ((rd_wr_same _ _ _).trans hsf))))
  have e6rf : s6.rd (c + t + 40) = r := by
    rw [d6, d5, d4]
    exact (rd_wr_apart _ _ _ _ (by omega)).trans ((rd_wr_apart _ _ _ _ (by omega)).trans
      ((rd_wr_same _ _ _).trans (Nat.mod_eq_of_lt hr)))
  have e6r : s6.rd (c + t + 16) = r := by
    rw [d6, d5, d4, d3]
    exact (rd_wr_apart _ _ _ _ (by omega)).trans ((rd_wr_apart _ _ _ _ (by omega)).trans
      ((rd_wr_apart _ _ _ _ (by omega)).trans
        ((rd_wr_same _ _ _).trans (Nat.mod_eq_of_lt hr))))
  have e6rn : s6.rd (c + t + 24) = q := by
    rw [d6, d5]
    exact (rd_wr_apart _ _ _ _ (by omega)).trans
      ((rd_wr_same _ _ _).trans ((congrArg (· % WORD) e4q).trans (Nat.mod_eq_of_lt hqW)))
  have e6rp : s6.rd (c + t + 32) = p := by
    rw [d6]
    exact (rd_wr_same _ _ _).trans ((congrArg (· % WORD) e5p).trans (Nat.mod_eq_of_lt hpW))
  -- the two conditional stores through the links
  rw [e6p] at d7
  have e7q : s7.rd (c + 8) = q := by
    rw [d7]
    refine (rd_ite_wr_apart _ _ _ _ _ ?_).trans e6q
    intro h
    have := a1 h
    rw [p8 h]
    omega
  rw [e7q] at d8
  have frame : ∀ x, (p ≠ NULL → p + 16 ≤ x ∨ x ≤ p) →
      (q ≠ NULL → q + 24 ≤ x ∨ x + 8 ≤ q + 16) → s8.rd x = s6.rd x := by
    intro x h1 h2
    rw [d8, d7]
    refine (rd_ite_wr_apart _ _ _ _ _ ?_).trans (rd_ite_wr_apart _ _ _ _ _ ?_)
    · intro h
      have := h2 h
      rw [q16 h]
      omega
    · intro h
      have := h1 h
      rw [p8 h]
      omega
  refine ⟨⟨e6p, e7q⟩, ?_, ?_, ?_, ?_, ?_, ?_, ?_, ?_⟩
  · exact (frame c (fun h => by have := a1 h; omega) (fun h => by have := a2 h; omega)).trans e6c
  · rw [hT]
    exact (frame _ (fun h => by have := a1 h; omega) (fun h => by have := a2 h; omega)).trans e6f
  · exact (frame _ (fun h => by have := a1 h; omega) (fun h => by have := a2 h; omega)).trans e6r
  · rw [hT]
    exact (frame _ (fun h => by have := a1 h; omega) (fun h => by have := a2 h; omega)).trans e6rf
  · rw [hN]
    exact (frame _ (fun h => by have := a1 h; omega) (fun h => by have := a2 h; omega)).trans e6rn
  · rw [hP]
    exact (frame _ (fun h => by have := a1 h; omega) (fun h => by have := a2 h; omega)).trans e6rp
  · intro h
    have e : p + NEXT_OFF = add64 p NEXT_OFF := (p8 h).symm
    rw [e, d8]
    refine (rd_ite_wr_apart _ _ _ _ _ ?_).trans ?_
    · intro h2
      have := hpq h h2
      rw [q16 h2, p8 h]
      omega
    · rw [d7]
      exact (rd_ite_wr_same _ _ _ _ h).trans (Nat.mod_eq_of_lt (by omega))
  · intro h
    have e : q + PREV_OFF = add64 q PREV_OFF := (q16 h).symm
    rw [e, d8]
    exact (rd_ite_wr_same _ _ _ _ h).trans (Nat.mod_eq_of_lt (by omega))

/-- The addresses of a split when nothing wraps. -/
theorem split_addr (c t : Nat) (hroom : c + t + 48 ≤ WORD) :
    add64 c NEXT_OFF = c + 8 ∧ add64 c PREV_OFF = c + 16 ∧ add64 c FOOTER_OFF = c + 24
      ∧ add64 (add64 (add64 c t) HEADER_SIZE) FOOTER_SIZE = c + t + 16
      ∧ add64 (c + t + 16) NEXT_OFF = c + t + 24 ∧ add64 (c + t + 16) PREV_OFF = c + t + 32
      ∧ add64 (c + t + 16) FOOTER_OFF = c + t + 40 := by
  have hH : HEADER_SIZE = 8 := rfl
  have hF : FOOTER_SIZE = 8 := rfl
  have hN : NEXT_OFF = 8 := rfl
  have hP : PREV_OFF = 16 := rfl
  have hT : FOOTER_OFF = 24 := rfl
  rw [hH, hF, hN, hP, hT]
  refine ⟨add64_eq _ _ (by omega), add64_eq _ _ (by omega), add64_eq _ _ (by omega), ?_,
    add64_eq _ _ (by omega), add64_eq _ _ (by omega), add64_eq _ _ (by omega)⟩
  rw [add64_eq c t (by omega), add64_eq (c + t) 8 (by omega), add64_eq (c + t + 8) 8 (by omega)]

/-- Memory after a split. -/
theorem grantSplit_words (s : Heap) (c t r p q : Nat)
    (hp : s.rd (add64 c PREV_OFF) = p) (hq : s.rd (add64 c NEXT_OFF) = q)
    (hroom : c + t + 48 ≤ WORD) (ht : 16 ≤ t) (hr : r < WORD)
    (hpa : p ≠ NULL → p + 32 ≤ WORD ∧ Apart p c ∧ Apart p (c + t + 16))
    (hqa : q ≠ NULL → q + 32 ≤ WORD ∧ Apart q c ∧ Apart q (c + t + 16))
    (hpq : p ≠ NULL → q ≠ NULL → Apart p q) :
    (grantSplit s c t r).rd c = setFlag t
      ∧ (grantSplit s c t r).rd (c + FOOTER_OFF) = setFlag t
      ∧ (grantSplit s c t r).rd (c + t + 16) = r
      ∧ (grantSplit s c t r).rd (c + t + 16 + FOOTER_OFF) = r
      ∧ (grantSplit s c t r).rd (c + t + 16 + NEXT_OFF) = q
      ∧ (grantSplit s c t r).rd (c + t + 16 + PREV_OFF) = p
      ∧ (p ≠ NULL → (grantSplit s c t r).rd (p + NEXT_OFF) = c + t + 16)
      ∧ (q ≠ NULL → (grantSplit s c t r).rd (q + PREV_OFF) = c + t + 16) := by
  suffices h : (fun g : Heap => g.rd c = setFlag t
      ∧ g.rd (c + FOOTER_OFF) = setFlag t
      ∧ g.rd (c + t + 16) = r
      ∧ g.rd (c + t + 16 + FOOTER_OFF) = r
      ∧ g.rd (c + t + 16 + NEXT_OFF) = q
      ∧ g.rd (c + t + 16 + PREV_OFF) = p
      ∧ (p ≠ NULL → g.rd (p + NEXT_OFF) = c + t + 16)
      ∧ (q ≠ NULL → g.rd (q + PREV_OFF) = c + t + 16)) (grantSplit s c t r) from h
  obtain ⟨c8, c16, c24, hrb, r8, r16, r24⟩ := split_addr c t hroom
  rw [c16] at hp
  rw [c8] at hq
  unfold grantSplit
  rw [hrb, c8, c16, c24]
  lift_lets
  intro s1 s2 rb
  have hrbdef : rb = c + t + 16 := rfl
  clear_value rb
  subst hrbdef
  rw [r8, r16, r24]
  intro s3 s4 s5 s6 s7 s8
  simp only [rd_ite_head]
  exact (split_core s s1 s2 s3 s4 s5 s6 s7 s8 c t r p q rfl rfl rfl rfl rfl rfl rfl rfl hp hq
    hroom ht hr hpa hqa hpq).2

/-- The accesses of a split are mapped when the block, its remainder and the
blocks its links name are. -/
theorem grantSplitTrace_mapped (s : Heap) (c t r p q lo hi : Nat)
    (hp : s.rd (add64 c PREV_OFF) = p) (hq : s.rd (add64 c NEXT_OFF) = q)
    (hlo : lo ≤ c) (hroom : c + t + 48 ≤ hi) (hhi : hi ≤ WORD) (ht : 16 ≤ t) (hr : r < WORD)
    (hpa : p ≠ NULL → (lo ≤ p ∧ p + 32 ≤ hi) ∧ Apart p c ∧ Apart p (c + t + 16))
    (hqa : q ≠ NULL → (lo ≤ q ∧ q + 32 ≤ hi) ∧ Apart q c ∧ Apart q (c + t + 16))
    (hpq : p ≠ NULL → q ≠ NULL → Apart p q) :
    firstFault lo hi (grantSplitTrace s c t r) = none := by
  have hroomW : c + t + 48 ≤ WORD := Nat.le_trans hroom hhi
  obtain ⟨c8, c16, c24, hrb, r8, r16, r24⟩ := split_addr c t hroomW
  have p8 : p ≠ NULL → add64 p NEXT_OFF = p + 8 := fun h =>
    add64_eq _ _ (by have := (hpa h).1; unfold NEXT_OFF; omega)
  have q16 : q ≠ NULL → add64 q PREV_OFF = q + 16 := fun h =>
    add64_eq _ _ (by have := (hqa h).1; unfold PREV_OFF; omega)
  rw [c16] at hp
  rw [c8] at hq
  unfold grantSplitTrace
  rw [hrb, c8, c16, c24]
  lift_lets
  intro s1 s2 rb
  have hrbdef : rb = c + t + 16 := rfl
  clear_value rb
  subst hrbdef
  rw [r8, r16, r24]
  intro s3 s4 s5 s6 s7
  obtain ⟨e6p, e7q⟩ := (split_core s s1 s2 s3 s4 s5 s6 s7 _ c t r p q rfl rfl rfl rfl rfl rfl
    rfl rfl hp hq hroomW ht hr
    (fun h => ⟨Nat.le_trans (hpa h).1.2 hhi, (hpa h).2⟩)
    (fun h => ⟨Nat.le_trans (hqa h).1.2 hhi, (hqa h).2⟩) hpq).1
  rw [e6p, e7q, firstFault_none_iff]
  intro a ha
  simp only [List.mem_append, List.mem_cons, List.mem_ite_nil_right, List.mem_singleton,
    List.not_mem_nil, or_false] at ha
  rcases ha with ((ha | ha) | ha) | ha
  · rcases ha with ha | ha | ha | ha | ha | ha | ha | ha | ha <;> subst ha <;>
      simp only [Access.addr] <;> omega
  · obtain ⟨h, ha⟩ := ha
    have := (hpa h).1
    rcases ha with ha | ha <;> subst ha <;> simp only [Access.addr, p8 h] <;> omega
  · subst ha
    simp only [Access.addr]
    omega
  · obtain ⟨h, ha⟩ := ha
    have := (hqa h).1
    rcases ha with ha | ha <;> subst ha <;> simp only [Access.addr, q16 h] <;> omega

/-- Up to the first large enough block of a chain of mapped blocks the loop
reads only mapped words; the accesses after that are those of the grant. -/
theorem scanTrace_finds_first (s : Heap) (t b lo hi : Nat) (hhi : hi ≤ WORD)
    (hg : firstFault lo hi (grantTrace s b t) = none) :
    ∀ (xs : List Nat) (c fuel : Nat), Chain s c xs →
      xs.find? (fun x => decide (t ≤ clearFlag (s.rd x))) = some b →
      xs.length ≤ fuel → (∀ x ∈ xs, lo ≤ x ∧ x + 32 ≤ hi) →
      firstFault lo hi (scanTrace fuel s t c) = none := by
  intro xs
  induction xs with
  | nil => intro c fuel _ hfind _ _; simp at hfind
  | cons x xs ih =>
    intro c fuel hc hfind hfuel hmap
    obtain ⟨hcx, hx0, hrest⟩ := hc
    subst hcx
    cases fuel with
    | zero => simp at hfuel
    | succ k =>
      simp only [List.length_cons, Nat.add_le_add_iff_right] at hfuel
      have hm := hmap c (List.mem_cons_self _ _)
      have h8 : add64 c NEXT_OFF = c + 8 := add64_eq _ _ (by unfold NEXT_OFF; omega)
      by_cases hfit : t ≤ clearFlag (s.rd c)
      · simp only [List.find?_cons, hfit, decide_True] at hfind
        cases hfind
        rw [firstFault_none_iff] at hg ⊢
        intro a ha
        simp only [scanTrace, if_neg hx0, ge_iff_le, if_pos hfit, List.mem_cons] at ha
        rcases ha with ha | ha
        · subst ha
          simp only [Access.addr]
          omega
        · exact hg a ha
      · simp only [List.find?_cons, hfit, decide_False] at hfind
        have h := ih (s.rd (add64 c NEXT_OFF)) k hrest hfind hfuel
          (fun y hy => hmap y (List.mem_cons_of_mem _ hy))
        rw [firstFault_none_iff] at h ⊢
        intro a ha
        simp only [scanTrace, if_neg hx0, ge_iff_le, if_neg hfit, List.mem_cons] at ha
        rcases ha with ha | ha | ha
        · subst ha
          simp only [Access.addr]
          omega
        · subst ha
          simp only [Access.addr, h8]
          omega
        · exact h a ha

/-! ## Accesses of a loop that finds no block -/

/-- C2 (zero-size request): in every state `malloc 0` returns `NULL` and the
state after the call is the state before it (memory, free-list head and break
alike), whatever the bound. -/
theorem malloc_zero_rejected (fuel : Nat) (s : Heap) : malloc fuel s 0 = some (NULL, s) := by
  cases fuel <;> simp [malloc]

/-- C4 (allocated blocks are framed), the code at a failing input.  The client
calls `malloc(24)`, `malloc(8)` with result `B = BASE + 64`, `free` of the
first result and `malloc(8)`, from the empty heap whose word below the break
is `1`; the run makes no access outside the mapped memory.  `B` is never
freed.  Before the last call the header of `B`, at `BASE + 56`, is `25`
(size 24, flag set) and the first word of its payload is `0`.  The last call
splits the 40-byte free block at `BASE` and stores to `BASE + 56` and to
`BASE + 64`; after it the header of `B` is `0` (flag clear) and the first word
of its payload is `16`. -/
theorem malloc_overwrites_live_block :
    faultAfter (emptyHeap 1) [Call.alloc 24, Call.alloc 8, Call.release 0, Call.alloc 8] = none
    ∧ ptrsAfter (emptyHeap 1) [Call.alloc 24, Call.alloc 8, Call.release 0, Call.alloc 8]
        = some [BASE + 8, BASE + 64, BASE + 8]
    ∧ wordAfter (emptyHeap 1) [Call.alloc 24, Call.alloc 8, Call.release 0] (BASE + 56)
        = some 25
    ∧ wordAfter (emptyHeap 1) [Call.alloc 24, Call.alloc 8, Call.release 0] (BASE + 64)
        = some 0
    ∧ Access.store (BASE + 56) ∈ mallocTrace 8 pairHeap 8
    ∧ Access.store (BASE + 64) ∈ mallocTrace 8 pairHeap 8
    ∧ wordAfter (emptyHeap 1) [Call.alloc 24, Call.alloc 8, Call.release 0, Call.alloc 8]
        (BASE + 56) = some 0
    ∧ wordAfter (emptyHeap 1) [Call.alloc 24, Call.alloc 8, Call.release 0, Call.alloc 8]
        (BASE + 64) = some 16 := by
  decide

/-- C5 (reuse of the just-freed block), the code at a failing input.  The
client calls `malloc(16)` three times, with results `A = BASE + 8`,
`B = BASE + 56` and `C = BASE + 104`, from the empty heap whose word below the
break is `1`; up to here no access is outside the mapped memory.  The headers
of `A`, `B` and `C` are `33` (size 32, flag set), so both neighbours of `B`
are allocated and the recorded size of `B` equals `totalSize 16`.  The word
before the header of `B` was never written and is `0`.  The call `free(B)`
reads that word as the tag of a free block of size 0 before `B`, starts to
unlink a block at `BASE + 32`, whose `prev` field is the header of `B`, now
`32`, and stores through that value: the eleventh access of the call is a
store to address `40`, outside the mapped memory.  The process faults in
`free(B)`; no call `malloc(16)` after it returns `B`. -/
theorem free_between_live_blocks_faults :
    faultAfter (emptyHeap 1) [Call.alloc 16, Call.alloc 16, Call.alloc 16] = none
    ∧ ptrsAfter (emptyHeap 1) [Call.alloc 16, Call.alloc 16, Call.alloc 16]
        = some [BASE + 8, BASE + 56, BASE + 104]
    ∧ wordAfter (emptyHeap 1) [Call.alloc 16, Call.alloc 16, Call.alloc 16] BASE = some 33
    ∧ wordAfter (emptyHeap 1) [Call.alloc 16, Call.alloc 16, Call.alloc 16] (BASE + 48)
        = some 33
    ∧ wordAfter (emptyHeap 1) [Call.alloc 16, Call.alloc 16, Call.alloc 16] (BASE + 96)
        = some 33
    ∧ totalSize 16 = 32
    ∧ wordAfter (emptyHeap 1) [Call.alloc 16, Call.alloc 16, Call.alloc 16] (BASE + 40)
        = some 0
    ∧ (freeTrace (stateAfter (emptyHeap 1) [Call.alloc 16, Call.alloc 16, Call.alloc 16])
          (BASE + 56)).take 11
        = [Access.load (BASE + 48), Access.store (BASE + 48), Access.load (BASE + 72),
            Access.store (BASE + 72), Access.load (BASE + 48), Access.load (BASE + 40),
            Access.load (BASE + 40), Access.load (BASE + 48), Access.load (BASE + 48),
            Access.load (BASE + 40), Access.store 40]
    ∧ faultAfter (emptyHeap 1)
        [Call.alloc 16, Call.alloc 16, Call.alloc 16, Call.release 1, Call.alloc 16]
        = some (Access.store 40) := by
  decide

/-- C6 (bidirectional coalescing), the code at the scenario of the claim:
`malloc(16)` with result `A = BASE + 8`, `malloc(16)` with result
`B = BASE + 56`, `free(A)`, `free(B)`, from the empty heap whose word below
the break is `1`.  Up to `free(A)` no access is outside the mapped memory, and
after it the free list is the block of `A` at `BASE`, of size 32, then the
block at `BASE + 96`.  The call `free(B)` reads the word before the header of
`B`, which is `0`, as the tag of a free block of size 0, starts to unlink a
block at `BASE + 32`, whose `prev` field is the header of `B`, now `32`, and
stores through that value: the eleventh access of the call is a store to
address `40`, outside the mapped memory.  The process faults in `free(B)`
and no merged block is made. -/
theorem second_free_faults :
    faultAfter (emptyHeap 1) [Call.alloc 16, Call.alloc 16, Call.release 0] = none
    ∧ ptrsAfter (emptyHeap 1) [Call.alloc 16, Call.alloc 16, Call.release 0]
        = some [BASE + 8, BASE + 56]
    ∧ Chain (stateAfter (emptyHeap 1) [Call.alloc 16, Call.alloc 16, Call.release 0])
        (stateAfter (emptyHeap 1) [Call.alloc 16, Call.alloc 16, Call.release 0]).free_list_head
        [BASE, BASE + 96]
    ∧ wordAfter (emptyHeap 1) [Call.alloc 16, Call.alloc 16, Call.release 0] BASE = some 32
    ∧ wordAfter (emptyHeap 1) [Call.alloc 16, Call.alloc 16, Call.release 0] (BASE + 48)
        = some 33
    ∧ wordAfter (emptyHeap 1) [Call.alloc 16, Call.alloc 16, Call.release 0] (BASE + 40)
        = some 0
    ∧ (freeTrace (stateAfter (emptyHeap 1) [Call.alloc 16, Call.alloc 16, Call.release 0])
          (BASE + 56)).take 11
        = [Access.load (BASE + 48), Access.store (BASE + 48), Access.load (BASE + 72),
            Access.store (BASE + 72), Access.load (BASE + 48), Access.load (BASE + 40),
            Access.load (BASE + 40), Access.load (BASE + 48), Access.load (BASE + 48),
            Access.load (BASE + 40), Access.store 40]
    ∧ faultAfter (emptyHeap 1) [Call.alloc 16, Call.alloc 16, Call.release 0, Call.release 1]
        = some (Access.store 40) := by
  decide

/-- C7 (large requests), the code at a failing input: the request
`2 ^ 64 - 1` on the empty heap whose word below the break is `1`.  The free
list is empty and the request is above 4096.  The sum
`size + HEADER_SIZE + FOOTER_SIZE` wraps, `totalSize` is 16 and the amount
passed to `sbrk` is 4096: `sbrk` succeeds, the break advances by 4096 bytes,
far less than the request, and the call returns `BASE + 8`, the payload of a
block whose header is `17` (size 16, flag set).  The run makes no access
outside the mapped memory. -/
theorem large_request_not_served :
    (emptyHeap 1).free_list_head = NULL
    ∧ totalSize (WORD - 1) = 16
    ∧ extendSize (WORD - 1) = 4096
    ∧ faultAfter (emptyHeap 1) [Call.alloc (WORD - 1)] = none
    ∧ ptrsAfter (emptyHeap 1) [Call.alloc (WORD - 1)] = some [BASE + 8]
    ∧ brkAfter (emptyHeap 1) [Call.alloc (WORD - 1)] = some (BASE + 4096)
    ∧ wordAfter (emptyHeap 1) [Call.alloc (WORD - 1)] BASE = some 17 := by
  decide

/-- C8 (bounded retry), the code at a failing input.  After `malloc(4080)`
from the empty heap whose word below the break is `1` the whole first block is
granted: the result is `BASE + 8`, the free list is empty, hence well-formed,
the break is `BASE + 4096`, and no access was outside the mapped memory.  The
last word of the heap, at `BASE + 4088`, lies after the payload and was never
written: it is `0`.  The call `malloc(8)` finds no block, `sbrk` succeeds and
moves the break to `BASE + 8192`, and `coalesce` on the new block at
`BASE + 4096` reads that word as the tag of a free block of size 0, starts to
unlink a block at `BASE + 4080`, whose `prev` field is the header `4096` of
the new block, and stores through that value: the ninth access of the call is
a store to address `4104`, outside the mapped memory.  The process faults
after the growth; the call does not return. -/
theorem retry_faults_after_growth :
    faultAfter (emptyHeap 1) [Call.alloc 4080] = none
    ∧ ptrsAfter (emptyHeap 1) [Call.alloc 4080] = some [BASE + 8]
    ∧ WellFormed (stateAfter (emptyHeap 1) [Call.alloc 4080]) []
    ∧ brkAfter (emptyHeap 1) [Call.alloc 4080] = some (BASE + 4096)
    ∧ wordAfter (emptyHeap 1) [Call.alloc 4080] (BASE + 4088) = some 0
    ∧ (sbrk (stateAfter (emptyHeap 1) [Call.alloc 4080]) (extendSize 8)).map (fun s => s.brk)
        = some (BASE + 8192)
    ∧ (mallocTrace 8 (stateAfter (emptyHeap 1) [Call.alloc 4080]) 8).take 9
        = [Access.store (BASE + 4096), Access.store (BASE + 4120), Access.load (BASE + 4096),
            Access.load (BASE + 4088), Access.load (BASE + 4088), Access.load (BASE + 4096),
            Access.load (BASE + 4096), Access.load (BASE + 4088), Access.store 4104]
    ∧ faultAfter (emptyHeap 1) [Call.alloc 4080, Call.alloc 8] = some (Access.store 4104) := by
  decide

/-- C9 (postcondition of `free`), the code at a failing input.  The client
calls `malloc(4032)`, `malloc(1)`, `malloc(16)` with result
`p = BASE + 4104`, then `free(p)`, from the empty heap whose word below the
break is `1`; the run makes no access outside the mapped memory.  After
`free(p)` the head of the free list is the block at `p - 8`; its header is
`4112` and its `footer` field holds the address `BASE + 4096`: the two tag
words differ. -/
theorem free_leaves_unequal_tags :
    faultAfter (emptyHeap 1) [Call.alloc 4032, Call.alloc 1, Call.alloc 16, Call.release 2]
      = none
    ∧ ptrsAfter (emptyHeap 1) [Call.alloc 4032, Call.alloc 1, Call.alloc 16, Call.release 2]
        = some [BASE + 8, BASE + 4072, BASE + 4104]
    ∧ headAfter (emptyHeap 1) [Call.alloc 4032, Call.alloc 1, Call.alloc 16, Call.release 2]
        = some (BASE + 4096)
    ∧ wordAfter (emptyHeap 1) [Call.alloc 4032, Call.alloc 1, Call.alloc 16, Call.release 2]
        (BASE + 4096) = some 4112
    ∧ wordAfter (emptyHeap 1) [Call.alloc 4032, Call.alloc 1, Call.alloc 16, Call.release 2]
        (BASE + 4096 + FOOTER_OFF) = some (BASE + 4096)
    ∧ 4112 ≠ BASE + 4096 := by
  decide

/-- C10 (no two adjacent free blocks), the code at a failing input: the two
calls `malloc(4032)`, `malloc(40)` from the empty heap whose word below the
break is `1`, with no access outside the mapped memory.  After them the break
is `BASE + 8192` and the free list is the block at `BASE + 4104` (size 4104),
then the block at `BASE + 4064` (size 48).  The block that starts where the
block at `BASE + 4064` ends is at `BASE + 4128`, inside the heap, and the flag
of its header word is clear. -/
theorem adjacent_free_blocks_remain :
    faultAfter (emptyHeap 1) [Call.alloc 4032, Call.alloc 40] = none
    ∧ ptrsAfter (emptyHeap 1) [Call.alloc 4032, Call.alloc 40] = some [BASE + 8, BASE + 4040]
    ∧ brkAfter (emptyHeap 1) [Call.alloc 4032, Call.alloc 40] = some (BASE + 8192)
    ∧ Chain (stateAfter (emptyHeap 1) [Call.alloc 4032, Call.alloc 40])
        (stateAfter (emptyHeap 1) [Call.alloc 4032, Call.alloc 40]).free_list_head
        [BASE + 4104, BASE + 4064]
    ∧ (stateAfter (emptyHeap 1) [Call.alloc 4032, Call.alloc 40]).rd (BASE + 4104) = 4104
    ∧ (stateAfter (emptyHeap 1) [Call.alloc 4032, Call.alloc 40]).rd (BASE + 4064) = 48
    ∧ succBlock (stateAfter (emptyHeap 1) [Call.alloc 4032, Call.alloc 40]) (BASE + 4064)
        = BASE + 4128
    ∧ flagBit ((stateAfter (emptyHeap 1) [Call.alloc 4032, Call.alloc 40]).rd (BASE + 4128)) = 0
    ∧ ¬ NoAdjacentFree (stateAfter (emptyHeap 1) [Call.alloc 4032, Call.alloc 40])
        [BASE + 4104, BASE + 4064] := by
  decide

/-- C11 (boundary tags), the code at a failing input: after `malloc(16)`,
`malloc(16)` from the empty heap whose word below the break is `1`, with no
access outside the mapped memory, the heap holds three blocks in sequence.
The header of the first is `33` and so is its `footer` field at offset 24,
but the word right before the header of the second block, which `coalesce`
reads as the footer of the first, is `0`.  For the second block the header is
`33` and that word is `0`. -/
theorem header_differs_from_boundary_word :
    faultAfter (emptyHeap 1) [Call.alloc 16, Call.alloc 16] = none
    ∧ ptrsAfter (emptyHeap 1) [Call.alloc 16, Call.alloc 16] = some [BASE + 8, BASE + 56]
    ∧ heapBlocks 3 (stateAfter (emptyHeap 1) [Call.alloc 16, Call.alloc 16]) BASE
        = [BASE, BASE + 48, BASE + 96]
    ∧ (stateAfter (emptyHeap 1) [Call.alloc 16, Call.alloc 16]).rd BASE = 33
    ∧ (stateAfter (emptyHeap 1) [Call.alloc 16, Call.alloc 16]).rd (BASE + FOOTER_OFF) = 33
    ∧ boundaryWord (stateAfter (emptyHeap 1) [Call.alloc 16, Call.alloc 16]) BASE = 0
    ∧ (stateAfter (emptyHeap 1) [Call.alloc 16, Call.alloc 16]).rd (BASE + 48) = 33
    ∧ boundaryWord (stateAfter (emptyHeap 1) [Call.alloc 16, Call.alloc 16]) (BASE + 48) = 0 := by
  decide

/-- C12 (free-list membership), the code at a failing input: the two calls
`malloc(4032)`, `malloc(40)` from the empty heap whose word below the break is
`1`, with no access outside the mapped memory.  After them the free list is
`BASE + 4104`, `BASE + 4064`.  The traversal of the heap from its first block
finds the blocks `BASE`, `BASE + 4064` and `BASE + 4128` and then reaches the
break.  The header word of the block at `BASE + 4128` has its flag clear, and
that block is not on the free list; the block `BASE + 4104`, which is on the
free list, is not found by the traversal. -/
theorem free_block_missing_from_list :
    faultAfter (emptyHeap 1) [Call.alloc 4032, Call.alloc 40] = none
    ∧ ptrsAfter (emptyHeap 1) [Call.alloc 4032, Call.alloc 40] = some [BASE + 8, BASE + 4040]
    ∧ heapBlocks 4 (stateAfter (emptyHeap 1) [Call.alloc 4032, Call.alloc 40]) BASE
        = [BASE, BASE + 4064, BASE + 4128]
    ∧ flagBit ((stateAfter (emptyHeap 1) [Call.alloc 4032, Call.alloc 40]).rd (BASE + 4128)) = 0
    ∧ Chain (stateAfter (emptyHeap 1) [Call.alloc 4032, Call.alloc 40])
        (stateAfter (emptyHeap 1) [Call.alloc 4032, Call.alloc 40]).free_list_head
        [BASE + 4104, BASE + 4064]
    ∧ BASE + 4128 ∉ [BASE + 4104, BASE + 4064]
    ∧ BASE + 4104 ∉ [BASE, BASE + 4064, BASE + 4128] := by
  decide

/-- C13 as stated fails.  In `pairHeap`, reached from the empty heap whose
word below the break is `1` by `malloc(24)`, `malloc(8)` and `free` of the
first result, the free list is `BASE`, `BASE + 96`.  The request
`malloc(100)` (total 120) is served by the block at `BASE + 96`, which is not
the head; its remainder `3912` is at least `MIN_SPLIT_SIZE` and the remainder
block is created at `BASE + 232`.  The whole run makes no access outside the
mapped memory.  After the call the head of the free list is still `BASE`, not
the remainder; the remainder is the second block of the list, where the
matched block was. -/
theorem split_remainder_not_at_head :
    faultAfter (emptyHeap 1) [Call.alloc 24, Call.alloc 8, Call.release 0, Call.alloc 100]
      = none
    ∧ ptrsAfter (emptyHeap 1) [Call.alloc 24, Call.alloc 8, Call.release 0, Call.alloc 100]
        = some [BASE + 8, BASE + 64, BASE + 104]
    ∧ Chain pairHeap pairHeap.free_list_head [BASE, BASE + 96]
    ∧ totalSize 100 = 120
    ∧ clearFlag (pairHeap.rd BASE) = 40
    ∧ clearFlag (pairHeap.rd (BASE + 96)) - totalSize 100 = 3912
    ∧ MIN_SPLIT_SIZE ≤ 3912
    ∧ remBlock (BASE + 96) (totalSize 100) = BASE + 232
    ∧ (malloc 8 pairHeap 100).map (fun r => r.1) = some (BASE + 104)
    ∧ (malloc 8 pairHeap 100).map (fun r => r.2.rd (BASE + 232)) = some 3912
    ∧ (malloc 8 pairHeap 100).map (fun r => r.2.free_list_head) = some BASE
    ∧ BASE ≠ BASE + 232
    ∧ (malloc 8 pairHeap 100).map
        (fun r => decide (Chain r.2 r.2.free_list_head [BASE, BASE + 232])) = some true := by
  decide

/-- C13 as amended: the remainder of a split takes the place of the matched
block in the free list.  Let the free list be the chain `xs` of blocks in the
mapped memory `[lo, hi)`, let `b` be the first block of `xs` that fits the
request `n > 0`, with a rest of at least `MIN_SPLIT_SIZE`, let the remainder
block at `b + totalSize n + 16` lie in the mapped memory, and let each block
named by the `prev` and `next` links of `b` lie in the mapped memory and share
no byte with `b`, with the remainder or with the other one.  Then `malloc n`
returns `b + 8` without a fault.  After the call the header and the `footer`
field of `b` are `totalSize n` with the flag set; the remainder block has the
rest as its header and as its `footer` field, flag clear, and the old `next`
and `prev` links of `b` as its links; the neighbours of `b` in the list are
linked to the remainder; and the head of the free list is the remainder if
`b` was the head and is unchanged if `b` was not the head. -/
theorem malloc_split_in_place (s : Heap) (n : Nat) (xs : List Nat) (b fuel lo hi : Nat)
    (hn : 0 < n) (hchain : Chain s s.free_list_head xs)
    (hfirst : xs.find? (fun x => decide (totalSize n ≤ clearFlag (s.rd x))) = some b)
    (hfuel : xs.length < fuel)
    (hsplit : MIN_SPLIT_SIZE ≤ clearFlag (s.rd b) - totalSize n)
    (hhi : hi ≤ WORD) (hmap : ∀ x ∈ xs, lo ≤ x ∧ x + 32 ≤ hi)
    (hroom : b + totalSize n + 48 ≤ hi)
    (hprev : s.rd (add64 b PREV_OFF) ≠ NULL →
      (lo ≤ s.rd (add64 b PREV_OFF) ∧ s.rd (add64 b PREV_OFF) + 32 ≤ hi)
        ∧ Apart (s.rd (add64 b PREV_OFF)) b
        ∧ Apart (s.rd (add64 b PREV_OFF)) (b + totalSize n + 16))
    (hnext : s.rd (add64 b NEXT_OFF) ≠ NULL →
      (lo ≤ s.rd (add64 b NEXT_OFF) ∧ s.rd (add64 b NEXT_OFF) + 32 ≤ hi)
        ∧ Apart (s.rd (add64 b NEXT_OFF)) b
        ∧ Apart (s.rd (add64 b NEXT_OFF)) (b + totalSize n + 16))
    (hlinks : s.rd (add64 b PREV_OFF) ≠ NULL → s.rd (add64 b NEXT_OFF) ≠ NULL →
      Apart (s.rd (add64 b PREV_OFF)) (s.rd (add64 b NEXT_OFF))) :
    ∃ s1, malloc fuel s n = some (b + HEADER_SIZE, s1)
      ∧ firstFault lo hi (mallocTrace fuel s n) = none
      ∧ remBlock b (totalSize n) = b + totalSize n + 16
      ∧ s1.rd b = setFlag (totalSize n)
      ∧ s1.rd (b + FOOTER_OFF) = setFlag (totalSize n)
      ∧ s1.rd (remBlock b (totalSize n)) = clearFlag (s.rd b) - totalSize n
      ∧ s1.rd (remBlock b (totalSize n) + FOOTER_OFF) = clearFlag (s.rd b) - totalSize n
      ∧ flagBit (s1.rd (remBlock b (totalSize n))) = 0
      ∧ s1.rd (remBlock b (totalSize n) + NEXT_OFF) = s.rd (add64 b NEXT_OFF)
      ∧ s1.rd (remBlock b (totalSize n) + PREV_OFF) = s.rd (add64 b PREV_OFF)
      ∧ (s.rd (add64 b PREV_OFF) ≠ NULL →
          s1.rd (s.rd (add64 b PREV_OFF) + NEXT_OFF) = remBlock b (totalSize n))
      ∧ (s.rd (add64 b NEXT_OFF) ≠ NULL →
          s1.rd (s.rd (add64 b NEXT_OFF) + PREV_OFF) = remBlock b (totalSize n))
      ∧ (s.free_list_head = b → s1.free_list_head = remBlock b (totalSize n))
      ∧ (s.free_list_head ≠ b → s1.free_list_head = s.free_list_head) := by
  cases fuel with
  | zero => simp at hfuel
  | succ k =>
    have hscan := scan_finds_first s (totalSize n) b xs s.free_list_head (k + 1) hchain hfirst
      (Nat.le_of_lt hfuel)
    have hg : (grant s b (totalSize n)).2
        = grantSplit s b (totalSize n) (clearFlag (s.rd b) - totalSize n) := by
      unfold grant
      rw [if_pos hsplit]
    have hgt : grantTrace s b (totalSize n)
        = grantSplitTrace s b (totalSize n) (clearFlag (s.rd b) - totalSize n) := by
      unfold grantTrace
      rw [if_pos hsplit]
    have hn0 : n ≠ 0 := Nat.pos_iff_ne_zero.mp hn
    have hb := hmap b (List.mem_of_find?_eq_some hfirst)
    have ht : 16 ≤ totalSize n := totalSize_ge n
    have hroomW : b + totalSize n + 48 ≤ WORD := Nat.le_trans hroom hhi
    have hr : clearFlag (s.rd b) - totalSize n < WORD :=
      Nat.lt_of_le_of_lt (Nat.le_trans (Nat.sub_le _ _) (clearFlag_le _)) (load64_lt _ _)
    have hrem : remBlock b (totalSize n) = b + totalSize n + 16 :=
      (split_addr b _ hroomW).2.2.2.1
    have hb8 : add64 b 8 = b + HEADER_SIZE := add64_eq _ _ (by omega)
    obtain ⟨w1, w1f, w2, w2f, w3, w4, w5, w6⟩ := grantSplit_words s b (totalSize n)
      (clearFlag (s.rd b) - totalSize n) _ _ rfl rfl hroomW ht hr
      (fun h => ⟨Nat.le_trans (hprev h).1.2 hhi, (hprev h).2⟩)
      (fun h => ⟨Nat.le_trans (hnext h).1.2 hhi, (hnext h).2⟩) hlinks
    have htr := scanTrace_finds_first s (totalSize n) b lo hi hhi
      (hgt ▸ grantSplitTrace_mapped s b (totalSize n) _ _ _ lo hi rfl rfl hb.1 hroom hhi ht hr
        hprev hnext hlinks)
      xs s.free_list_head (k + 1) hchain hfirst (Nat.le_of_lt hfuel) hmap
    refine ⟨(grant s b (totalSize n)).2, ?_, ?_, hrem, ?_, ?_, ?_, ?_, ?_, ?_, ?_, ?_, ?_,
      ?_, ?_⟩
    · simp [malloc, hn0, hscan, grant_fst, hb8]
    · simp [mallocTrace, hn0, hscan, htr]
    · rw [hg]; exact w1
    · rw [hg]; exact w1f
    · rw [hg, hrem]; exact w2
    · rw [hg, hrem]; exact w2f
    · rw [hg, hrem, w2]
      unfold flagBit
      have h1 := clearFlag_even (s.rd b)
      have h2 := totalSize_even n
      omega
    · rw [hg, hrem]; exact w3
    · rw [hg, hrem]; exact w4
    · intro h; rw [hg, hrem]; exact w5 h
    · intro h; rw [hg, hrem]; exact w6 h
    · intro h
      rw [hg, grantSplit_head, if_pos h]
    · intro h
      rw [hg, grantSplit_head, if_neg h]

/-- Instance of the amended C13.  The state `pairHeap` is reached without a
fault by `malloc(24)`, `malloc(8)` and `free` of the first result; its free
list is `BASE`, `BASE + 96`.  The request `malloc(100)` splits the block at
`BASE + 96`, whose `prev` link is `BASE` and whose `next` link is `NULL`; the
remainder at `BASE + 232` gets these links, the block `BASE` is linked to it,
and the head stays `BASE`. -/
theorem malloc_split_in_place_witness :
    (faultAfter (emptyHeap 1) [Call.alloc 24, Call.alloc 8, Call.release 0] = none
      ∧ ptrsAfter (emptyHeap 1) [Call.alloc 24, Call.alloc 8, Call.release 0]
          = some [BASE + 8, BASE + 64]
      ∧ Chain pairHeap pairHeap.free_list_head [BASE, BASE + 96]
      ∧ pairHeap.rd (add64 (BASE + 96) PREV_OFF) = BASE
      ∧ pairHeap.rd (add64 (BASE + 96) NEXT_OFF) = NULL
      ∧ remBlock (BASE + 96) (totalSize 100) = BASE + 232)
    ∧ ∃ s1, malloc 3 pairHeap 100 = some (BASE + 96 + HEADER_SIZE, s1)
      ∧ firstFault (BASE - 8) (BASE + 4096) (mallocTrace 3 pairHeap 100) = none
      ∧ remBlock (BASE + 96) (totalSize 100) = BASE + 96 + totalSize 100 + 16
      ∧ s1.rd (BASE + 96) = setFlag (totalSize 100)
      ∧ s1.rd (BASE + 96 + FOOTER_OFF) = setFlag (totalSize 100)
      ∧ s1.rd (remBlock (BASE + 96) (totalSize 100))
          = clearFlag (pairHeap.rd (BASE + 96)) - totalSize 100
      ∧ s1.rd (remBlock (BASE + 96) (totalSize 100) + FOOTER_OFF)
          = clearFlag (pairHeap.rd (BASE + 96)) - totalSize 100
      ∧ flagBit (s1.rd (remBlock (BASE + 96) (totalSize 100))) = 0
      ∧ s1.rd (remBlock (BASE + 96) (totalSize 100) + NEXT_OFF)
          = pairHeap.rd (add64 (BASE + 96) NEXT_OFF)
      ∧ s1.rd (remBlock (BASE + 96) (totalSize 100) + PREV_OFF)
          = pairHeap.rd (add64 (BASE + 96) PREV_OFF)
      ∧ (pairHeap.rd (add64 (BASE + 96) PREV_OFF) ≠ NULL →
          s1.rd (pairHeap.rd (add64 (BASE + 96) PREV_OFF) + NEXT_OFF)
            = remBlock (BASE + 96) (totalSize 100))
      ∧ (pairHeap.rd (add64 (BASE + 96) NEXT_OFF) ≠ NULL →
          s1.rd (pairHeap.rd (add64 (BASE + 96) NEXT_OFF) + PREV_OFF)
            = remBlock (BASE + 96) (totalSize 100))
      ∧ (pairHeap.free_list_head = BASE + 96 →
          s1.free_list_head = remBlock (BASE + 96) (totalSize 100))
      ∧ (pairHeap.free_list_head ≠ BASE + 96 →
          s1.free_list_head = pairHeap.free_list_head) :=
  ⟨by decide,
    malloc_split_in_place pairHeap 100 [BASE, BASE + 96] (BASE + 96) 3 (BASE - 8) (BASE + 4096)
      (by decide) (by decide) (by decide) (by decide) (by decide) (by decide) (by decide)
      (by decide) (by decide) (by decide) (by decide)⟩

/-- C14 (granted block), the code at a failing input.  In the third call of
the client `malloc(4032)`, `malloc(1)`, `malloc(16)`, run from the empty heap
whose word below the break is `1` with no access outside the mapped memory,
the heap has been grown and the free list is `BASE + 4096`, `BASE + 4104`.
The call `malloc(16)` in that state is served from the list by the head block
(recorded size 4096, total 32, split) without moving the break and returns
`BASE + 4104`.  Afterwards the header of the granted block is `33`, but its
`footer` field holds the address `BASE + 4144`, whose flag bit is clear. -/
theorem granted_block_footer_not_flagged :
    totalSize 16 = 32
    ∧ flagBit (BASE + 4144) = 0
    ∧ faultAfter (emptyHeap 1) [Call.alloc 4032, Call.alloc 1, Call.alloc 16] = none
    ∧ ptrsAfter (emptyHeap 1) [Call.alloc 4032, Call.alloc 1, Call.alloc 16]
        = some [BASE + 8, BASE + 4072, BASE + 4104]
    ∧ Chain (crowdedHeap 1 4032) (crowdedHeap 1 4032).free_list_head
        [BASE + 4096, BASE + 4104]
    ∧ (crowdedHeap 1 4032).rd (BASE + 4096) = 4096
    ∧ (crowdedHeap 1 4032).brk = BASE + 8192
    ∧ (malloc 2 (crowdedHeap 1 4032) 16).map (fun r => r.1) = some (BASE + 4104)
    ∧ (malloc 2 (crowdedHeap 1 4032) 16).map (fun r => r.2.brk) = some (BASE + 8192)
    ∧ (malloc 2 (crowdedHeap 1 4032) 16).map (fun r => r.2.rd (BASE + 4096)) = some 33
    ∧ (malloc 2 (crowdedHeap 1 4032) 16).map (fun r => r.2.rd (BASE + 4096 + FOOTER_OFF))
        = some (BASE + 4144)
    ∧ wordAfter (emptyHeap 1) [Call.alloc 4032, Call.alloc 1, Call.alloc 16]
        (BASE + 4096 + FOOTER_OFF) = some (BASE + 4144) := by
  decide

/-- C15 (first-block guard), the code at a failing input: the first growth of
the heap, made by `malloc(16)` on the empty heap, which runs `coalesce` on the
first block `BASE` of the heap.  The global `heap_start` is `NULL` before the call
and after it.  With the word below the break `1` the accesses of the growth
are the two stores of the tags, the read of the header, then a read at
`BASE - 8`, the word before the first block and below the heap, then the four
stores of the insertion; the run makes no access outside the mapped memory.
With that word `0` the same read finds a clear flag, the word is read again
for the size, the unlink of a block at `BASE - 16` begins, and the ninth
access is a store to address `4104`, outside the mapped memory: a backward
merge is begun and the process faults in it. -/
theorem first_block_guard_never_fires :
    (emptyHeap 1).heap_start = NULL
    ∧ (emptyHeap 1).brk = BASE
    ∧ growTrace (emptyHeap 1) 16
        = [Access.store BASE, Access.store (BASE + 24), Access.load BASE,
            Access.load (BASE - 8), Access.store BASE, Access.store (BASE + 24),
            Access.store (BASE + 8), Access.store (BASE + 16)]
    ∧ BASE - 8 < BASE
    ∧ faultAfter (emptyHeap 1) [Call.alloc 16] = none
    ∧ ptrsAfter (emptyHeap 1) [Call.alloc 16] = some [BASE + 8]
    ∧ (stateAfter (emptyHeap 1) [Call.alloc 16]).heap_start = NULL
    ∧ (emptyHeap 0).heap_start = NULL
    ∧ (emptyHeap 0).brk = BASE
    ∧ (growTrace (emptyHeap 0) 16).take 9
        = [Access.store BASE, Access.store (BASE + 24), Access.load BASE,
            Access.load (BASE - 8), Access.load (BASE - 8), Access.load BASE,
            Access.load BASE, Access.load (BASE - 8), Access.store 4104]
    ∧ faultAfter (emptyHeap 0) [Call.alloc 16] = some (Access.store 4104) := by
  decide

/-- C16 (growth block), the code at a failing input: the first growth of the
empty heap whose word below the break is `1`, made for `malloc(16)`, with no
access outside the mapped memory.  The free list is empty, `extendSize 16` is
4096 and the break moves from `BASE` to `BASE + 4096`.  The new free block is
at the old break `BASE` with recorded size 4096, and the block after it, as
`coalesce` computes it, starts at `BASE + 4112`, 16 bytes past the new
break. -/
theorem growth_block_overruns_break :
    extendSize 16 = 4096
    ∧ (emptyHeap 1).free_list_head = NULL
    ∧ (emptyHeap 1).brk = BASE
    ∧ firstFault (BASE - 8) (emptyHeap 1).limit (growTrace (emptyHeap 1) 16) = none
    ∧ (grownHeap 1).brk = BASE + 4096
    ∧ (grownHeap 1).free_list_head = BASE
    ∧ (grownHeap 1).rd BASE = 4096
    ∧ succBlock (grownHeap 1) BASE = BASE + 4112
    ∧ (grownHeap 1).brk < succBlock (grownHeap 1) BASE := by
  decide

/-- C17 (split conserves the block), the code at a failing input: the split
made by `malloc(16)` right after the first growth, from the empty heap whose
word below the break is `1`, with no access outside the mapped memory.  The
free block is `c = BASE` with recorded size 4096 and ends at `BASE + 4112`.
After the split the allocated part has size 32 and ends at `BASE + 48`, the
remainder starts there with recorded size 4064, and the remainder ends at
`BASE + 4128`, 16 bytes past the end of the original block.  Second input: in
the state after `malloc(24)`, `malloc(8)`, `free` of the first result, the
free block `BASE` of size 40 ends at `BASE + 56`; `malloc(8)` splits it with a
remainder of 16 at `BASE + 40` and stores the `prev` and `footer` fields of
the remainder at `BASE + 56` and `BASE + 64`, outside the block. -/
theorem split_remainder_overruns_block :
    (faultAfter (emptyHeap 1) [Call.alloc 16] = none
      ∧ succBlock (grownHeap 1) BASE = BASE + 4112
      ∧ (malloc 2 (grownHeap 1) 16).map (fun r => r.1) = some (BASE + 8)
      ∧ (malloc 2 (grownHeap 1) 16).map (fun r => r.2.rd BASE) = some 33
      ∧ (malloc 2 (grownHeap 1) 16).map (fun r => succBlock r.2 BASE) = some (BASE + 48)
      ∧ remBlock BASE (totalSize 16) = BASE + 48
      ∧ (malloc 2 (grownHeap 1) 16).map (fun r => r.2.rd (BASE + 48)) = some 4064
      ∧ (malloc 2 (grownHeap 1) 16).map (fun r => succBlock r.2 (BASE + 48))
          = some (BASE + 4128))
    ∧ (faultAfter (emptyHeap 1) [Call.alloc 24, Call.alloc 8, Call.release 0, Call.alloc 8]
          = none
      ∧ pairHeap.rd BASE = 40
      ∧ succBlock pairHeap BASE = BASE + 56
      ∧ remBlock BASE (totalSize 8) = BASE + 40
      ∧ Access.store (BASE + 40 + PREV_OFF) ∈ mallocTrace 8 pairHeap 8
      ∧ Access.store (BASE + 40 + FOOTER_OFF) ∈ mallocTrace 8 pairHeap 8
      ∧ wordAfter (emptyHeap 1) [Call.alloc 24, Call.alloc 8, Call.release 0] (BASE + 56)
          = some 25
      ∧ wordAfter (emptyHeap 1) [Call.alloc 24, Call.alloc 8, Call.release 0, Call.alloc 8]
          (BASE + 40) = some 16
      ∧ wordAfter (emptyHeap 1) [Call.alloc 24, Call.alloc 8, Call.release 0, Call.alloc 8]
          (BASE + 40 + PREV_OFF) = some 0
      ∧ wordAfter (emptyHeap 1) [Call.alloc 24, Call.alloc 8, Call.release 0] (BASE + 64)
          = some 0
      ∧ wordAfter (emptyHeap 1) [Call.alloc 24, Call.alloc 8, Call.release 0, Call.alloc 8]
          (BASE + 40 + FOOTER_OFF) = some 16) := by
  decide

/-- C18 (well-formedness is preserved), the code at a failing input.  After
`malloc(24)`, `malloc(4000)`, `malloc(1)` from the empty heap whose word below
the break is `1` the free list is the single block `BASE + 4128` with
`prev = NULL`: it is well-formed.  The next call `malloc(1)` grows the heap,
returns `BASE + 4104`, and makes no access outside the mapped memory.  After
it the head of the free list is the block `BASE + 4136`, whose `next` link is
`BASE + 4136` itself: the list is cyclic, and no list is a well-formed free
list of the state after the call. -/
theorem malloc_breaks_list_shape :
    WellFormed (stateAfter (emptyHeap 1) [Call.alloc 24, Call.alloc 4000, Call.alloc 1])
      [BASE + 4128]
    ∧ faultAfter (emptyHeap 1) [Call.alloc 24, Call.alloc 4000, Call.alloc 1, Call.alloc 1]
        = none
    ∧ ptrsAfter (emptyHeap 1) [Call.alloc 24, Call.alloc 4000, Call.alloc 1, Call.alloc 1]
        = some [BASE + 8, BASE + 64, BASE + 4096, BASE + 4104]
    ∧ headAfter (emptyHeap 1) [Call.alloc 24, Call.alloc 4000, Call.alloc 1, Call.alloc 1]
        = some (BASE + 4136)
    ∧ wordAfter (emptyHeap 1) [Call.alloc 24, Call.alloc 4000, Call.alloc 1, Call.alloc 1]
        (BASE + 4136 + NEXT_OFF) = some (BASE + 4136)
    ∧ ∀ xs, ¬ WellFormed
        (stateAfter (emptyHeap 1) [Call.alloc 24, Call.alloc 4000, Call.alloc 1, Call.alloc 1])
        xs := by
  refine ⟨by decide, by decide, by decide, by decide, by decide, ?_⟩
  intro xs h
  have hh : (stateAfter (emptyHeap 1)
      [Call.alloc 24, Call.alloc 4000, Call.alloc 1, Call.alloc 1]).free_list_head
      = BASE + 4136 := by decide
  have hl := h.1
  rw [hh] at hl
  exact chain_self_loop _ (BASE + 4136) (by decide) (by decide) xs hl

end Alloc
